import Mathlib

/-!
# Verification of the ehrglot schema loader and code generator

Shallow embedding of the Go sources of `konzy/ehrglot`:

* `pkg/schema/loader.go` — schema data model, `Schema.GetName`, the
  directory loader `Loader.LoadAll` / `loadSchemaDir`;
* `pkg/generator/python/python.go` — namespace grouping in `Generate`,
  the type mapper `toPythonType`, the stub `GenerateMappings`;
* `cmd` main (`generateCmd`) — language-identifier dispatch.

File-system effects (directory enumeration, file reads, YAML
deserialization) are modelled by explicit data: a schema file is a path
together with the outcome of reading and unmarshalling it; a directory is
a glob outcome plus its file list; the root is the optional `fhir_r4`
directory stat result, the `ReadDir` outcome and the entry list.
-/

namespace Ehrglot

/-- `Field` from `pkg/schema/loader.go`: one schema field, with nested
`children` (hence an inductive rather than a structure). -/
inductive Field where
  | mk (name type : String) (required : Bool) (description piiLevel : String)
       (children : List Field)

/-- `Schema` from `pkg/schema/loader.go`. `SourceFile` and `Namespace`
carry no YAML tag and are stamped by the loader. -/
structure Schema where
  Name : String
  Resource : String
  Description : String
  Fields : List Field
  SourceFile : String
  Namespace : String

/-- `Schema.GetName` from `loader.go`: `Name` when non-empty, else
`Resource`. -/
def Schema.GetName (s : Schema) : String :=
  if s.Name ≠ "" then s.Name else s.Resource

/-- `FieldMapping` from `loader.go`. -/
structure FieldMapping where
  Source : String
  Target : String
  Transform : String

/-- `SchemaMapping` from `loader.go`. -/
structure SchemaMapping where
  SourceSystem : String
  SourceTable : String
  TargetResource : String
  FieldMappings : List FieldMapping
  SourceFile : String

/-- Outcome of `os.ReadFile` followed by `yaml.Unmarshal` on one
candidate schema file: the read can fail, the unmarshal can fail, or a
`Schema` value is produced (its `SourceFile`/`Namespace` still unset). -/
inductive FileRead where
  | readError
  | parseError
  | parsed (s : Schema)

/-- One file found by `filepath.Glob(dir, "*.yaml")`: its path and the
outcome of reading it. -/
structure SchemaFile where
  path : String
  content : FileRead

/-- One namespace directory: whether `filepath.Glob` itself succeeds
(its only error is a malformed pattern) and the matched files in glob
order. -/
structure DirFS where
  globOk : Bool
  files : List SchemaFile

/-- One entry of `os.ReadDir(baseDir)`. -/
structure DirEntry where
  name : String
  isDir : Bool
  dir : DirFS

/-- The schema root directory as `LoadAll` observes it: the result of
`os.Stat(baseDir/fhir_r4)` (`some` iff the stat succeeds, carrying that
directory), the outcome of `os.ReadDir(baseDir)` and its entries. -/
structure RootFS where
  fhirStat : Option DirFS
  readDirOk : Bool
  entries : List DirEntry

/-- The per-file loop body of `loadSchemaDir` (loader.go lines 116-139):
skip `_mapping.yaml` files, skip read failures, skip unmarshal failures,
skip schemas whose resolved name is empty, and stamp `SourceFile` and
`Namespace` on the rest. -/
def loadFiles (ns : String) : List SchemaFile → List Schema
  | [] => []
  | f :: rest =>
    if f.path.endsWith "_mapping.yaml" then loadFiles ns rest
    else
      match f.content with
      | .readError => loadFiles ns rest
      | .parseError => loadFiles ns rest
      | .parsed s =>
        if s.GetName = "" then loadFiles ns rest
        else { s with SourceFile := f.path, Namespace := ns } :: loadFiles ns rest

/-- `loadSchemaDir` from `loader.go`: a `filepath.Glob` failure is the
only error; per-file failures are skipped inside `loadFiles`. -/
def loadSchemaDir (d : DirFS) (ns : String) : Except String (List Schema) :=
  if d.globOk then .ok (loadFiles ns d.files) else .error "glob error"

/-- The second loop of `LoadAll` (loader.go lines 87-103): every
directory entry except `fhir_r4` and `schema_overrides` is loaded as a
namespace; a directory whose load errors is skipped. -/
def loadOtherDirs : List DirEntry → List Schema
  | [] => []
  | e :: rest =>
    if !e.isDir then loadOtherDirs rest
    else if e.name = "fhir_r4" ∨ e.name = "schema_overrides" then loadOtherDirs rest
    else
      match loadSchemaDir e.dir e.name with
      | .error _ => loadOtherDirs rest
      | .ok ss => ss ++ loadOtherDirs rest

/-- `Loader.LoadAll` from `loader.go`: when `os.Stat` finds `fhir_r4` it
is loaded first and a load error there is fatal; when the stat fails the
directory is skipped.  Then `os.ReadDir` enumerates the remaining
namespace directories (a `ReadDir` failure is fatal). -/
def LoadAll (r : RootFS) : Except String (List Schema) :=
  match r.fhirStat with
  | some d =>
    match loadSchemaDir d "fhir_r4" with
    | .error e => .error ("failed to load fhir_r4: " ++ e)
    | .ok fhirSchemas =>
      if r.readDirOk then .ok (fhirSchemas ++ loadOtherDirs r.entries)
      else .error "failed to read schema dir"
  | none =>
    if r.readDirOk then .ok (loadOtherDirs r.entries)
    else .error "failed to read schema dir"

/-- Stamping `SourceFile`/`Namespace` does not change the resolved name. -/
lemma getName_stamp (s : Schema) (p ns : String) :
    ({ s with SourceFile := p, Namespace := ns } : Schema).GetName = s.GetName := rfl

/-- Every schema produced by the per-file loop has a non-empty resolved name. -/
lemma mem_loadFiles_getName {ns : String} :
    ∀ {files : List SchemaFile} {s : Schema}, s ∈ loadFiles ns files → s.GetName ≠ "" := by
  intro files
  induction files with
  | nil => intro s hs; simp [loadFiles] at hs
  | cons f rest ih =>
    intro s hs
    by_cases hp : f.path.endsWith "_mapping.yaml"
    · rw [loadFiles, if_pos hp] at hs
      exact ih hs
    · rw [loadFiles, if_neg hp] at hs
      cases hc : f.content with
      | readError => rw [hc] at hs; exact ih hs
      | parseError => rw [hc] at hs; exact ih hs
      | parsed s' =>
        by_cases hn : s'.GetName = ""
        · simp only [hc, hn, if_true, ite_true] at hs
          exact ih hs
        · simp only [hc, hn, if_false, ite_false] at hs
          rcases List.mem_cons.mp hs with h | h
          · rw [h, getName_stamp]; exact hn
          · exact ih h

/-- Every schema produced by the non-fhir directory loop has a non-empty
resolved name. -/
lemma mem_loadOtherDirs_getName :
    ∀ {entries : List DirEntry} {s : Schema}, s ∈ loadOtherDirs entries → s.GetName ≠ "" := by
  intro entries
  induction entries with
  | nil => intro s hs; simp [loadOtherDirs] at hs
  | cons e rest ih =>
    intro s hs
    rw [loadOtherDirs] at hs
    by_cases hd : e.isDir
    · rw [if_neg (by simp [hd])] at hs
      by_cases hr : e.name = "fhir_r4" ∨ e.name = "schema_overrides"
      · rw [if_pos hr] at hs; exact ih hs
      · rw [if_neg hr] at hs
        by_cases hg : e.dir.globOk
        · rw [loadSchemaDir, if_pos hg] at hs
          rcases List.mem_append.mp hs with h | h
          · exact mem_loadFiles_getName h
          · exact ih h
        · rw [loadSchemaDir, if_neg hg] at hs; exact ih hs
    · rw [if_pos (by simp [hd])] at hs; exact ih hs

/-- Claim C1: for every schema in a successful `LoadAll` result, the resolved
name `GetName` equals the `Name` field when that is non-empty and the
`Resource` field otherwise, and it is never empty: every schema file whose
resolved name is empty has been excluded from the returned collection. -/
theorem loadAll_getName (r : RootFS) (schemas : List Schema)
    (h : LoadAll r = .ok schemas) :
    ∀ s ∈ schemas, s.GetName ≠ "" ∧
      (s.Name ≠ "" → s.GetName = s.Name) ∧ (s.Name = "" → s.GetName = s.Resource) := by
  intro s hs
  refine ⟨?_, ?_, ?_⟩
  · -- non-emptiness: trace `s` back through the two loading loops
    cases hstat : r.fhirStat with
    | some d =>
      by_cases hg : d.globOk
      · by_cases hrd : r.readDirOk
        · simp only [LoadAll, hstat, loadSchemaDir, hg, hrd, if_true, ite_true,
            Except.ok.injEq] at h
          subst h
          rcases List.mem_append.mp hs with h' | h'
          · exact mem_loadFiles_getName h'
          · exact mem_loadOtherDirs_getName h'
        · simp [LoadAll, hstat, loadSchemaDir, hg, hrd] at h
      · simp [LoadAll, hstat, loadSchemaDir, hg] at h
    | none =>
      by_cases hrd : r.readDirOk
      · simp only [LoadAll, hstat, hrd, if_true, ite_true, Except.ok.injEq] at h
        subst h
        exact mem_loadOtherDirs_getName hs
      · simp [LoadAll, hstat, hrd] at h
  · intro hn; rw [Schema.GetName, if_pos hn]
  · intro hn; rw [Schema.GetName, if_neg (by simp [hn])]

/-- A concrete root: no `fhir_r4`, one `hl7v2` namespace directory holding a
single well-formed schema file. -/
def c2Root : RootFS :=
  { fhirStat := none
    readDirOk := true
    entries := [⟨"hl7v2", true, ⟨true, [⟨"msh.yaml", .parsed ⟨"MSH", "", "HL7 header", [], "", ""⟩⟩]⟩⟩] }

/-- Witness for C1: `LoadAll` on `c2Root` succeeds, and the loaded schema
satisfies the resolved-name property. -/
theorem loadAll_getName_witness :
    (⟨"MSH", "", "HL7 header", [], "msh.yaml", "hl7v2"⟩ : Schema).GetName ≠ "" :=
  (loadAll_getName c2Root [⟨"MSH", "", "HL7 header", [], "msh.yaml", "hl7v2"⟩] rfl
    ⟨"MSH", "", "HL7 header", [], "msh.yaml", "hl7v2"⟩ (List.mem_singleton.mpr rfl)).1

/-- Counterexample to C2 as stated: with the `fhir_r4` directory absent
(`os.Stat` fails, `fhirStat = none`), `LoadAll` does not return a hard
error; it silently skips `fhir_r4` and returns the schemas of the other
namespaces. -/
theorem loadAll_missing_fhir_counterexample :
    LoadAll c2Root = .ok [⟨"MSH", "", "HL7 header", [], "msh.yaml", "hl7v2"⟩] := rfl

/-- Claim C2 (amended): `LoadAll` returns the hard `failed to load fhir_r4`
error only when the `fhir_r4` directory exists (its stat succeeds) and
enumerating it fails; when the stat fails the directory is silently skipped
and the scan proceeds over the remaining namespaces. -/
theorem loadAll_fhir_behavior (r : RootFS) :
    (∀ d : DirFS, r.fhirStat = some d → d.globOk = false →
        LoadAll r = .error ("failed to load fhir_r4: glob error")) ∧
    (r.fhirStat = none → r.readDirOk = true →
        LoadAll r = .ok (loadOtherDirs r.entries)) := by
  constructor
  · intro d hstat hglob
    simp [LoadAll, hstat, loadSchemaDir, hglob]
  · intro hstat hrd
    simp [LoadAll, hstat, hrd]

/-- A root whose `fhir_r4` directory exists but fails to enumerate. -/
def fhirGlobErrRoot : RootFS := { fhirStat := some ⟨false, []⟩, readDirOk := true, entries := [] }

/-- Witness for the amended C2, at two concrete roots. -/
theorem loadAll_fhir_behavior_witness :
    LoadAll fhirGlobErrRoot = .error "failed to load fhir_r4: glob error" ∧
    LoadAll c2Root = .ok (loadOtherDirs c2Root.entries) :=
  ⟨(loadAll_fhir_behavior fhirGlobErrRoot).1 ⟨false, []⟩ rfl rfl,
   (loadAll_fhir_behavior c2Root).2 rfl rfl⟩

/-- Claim C6: a candidate schema file that fails to read or to deserialize is
skipped: deleting it from a directory's file list changes nothing — neither
the per-file loop's output, nor `loadSchemaDir`'s result (so no error is
introduced), nor the result of a whole `LoadAll` whose `fhir_r4` directory
holds the corrupt file. -/
theorem corrupt_file_skipped (ns : String) (g : Bool) (pre post : List SchemaFile)
    (f : SchemaFile) (h : f.content = .readError ∨ f.content = .parseError) :
    loadFiles ns (pre ++ f :: post) = loadFiles ns (pre ++ post) ∧
    loadSchemaDir ⟨g, pre ++ f :: post⟩ ns = loadSchemaDir ⟨g, pre ++ post⟩ ns ∧
    (∀ (ok : Bool) (entries : List DirEntry),
        LoadAll ⟨some ⟨g, pre ++ f :: post⟩, ok, entries⟩ =
        LoadAll ⟨some ⟨g, pre ++ post⟩, ok, entries⟩) := by
  have hfiles : ∀ ns', loadFiles ns' (pre ++ f :: post) = loadFiles ns' (pre ++ post) := by
    intro ns'
    induction pre with
    | nil =>
      cases hp : f.path.endsWith "_mapping.yaml" with
      | true => simp [loadFiles, hp]
      | false =>
        rcases h with h | h <;> simp [loadFiles, hp, h]
    | cons f' rest ih =>
      cases hp : f'.path.endsWith "_mapping.yaml" with
      | true => simp [loadFiles, hp, ih]
      | false =>
        cases hc : f'.content with
        | readError => simp [loadFiles, hp, hc, ih]
        | parseError => simp [loadFiles, hp, hc, ih]
        | parsed s' =>
          by_cases hn : s'.GetName = "" <;> simp [loadFiles, hp, hc, hn, ih]
  exact ⟨hfiles ns, by simp [loadSchemaDir, hfiles],
    by intro ok entries; simp [LoadAll, loadSchemaDir, hfiles]⟩

/-- Witness for C6: deleting a concrete malformed file from a directory
holding one good schema changes nothing. -/
theorem corrupt_file_skipped_witness :
    loadFiles "hl7v2"
        ([⟨"obx.yaml", .parsed ⟨"OBX", "", "", [], "", ""⟩⟩] ++
          ⟨"bad.yaml", .parseError⟩ :: []) =
      loadFiles "hl7v2" ([⟨"obx.yaml", .parsed ⟨"OBX", "", "", [], "", ""⟩⟩] ++ []) :=
  (corrupt_file_skipped "hl7v2" true [⟨"obx.yaml", .parsed ⟨"OBX", "", "", [], "", ""⟩⟩] []
    ⟨"bad.yaml", .parseError⟩ (Or.inr rfl)).1

/-- The nine generator implementations imported by the command main:
each constructor stands for one `NewGenerator()` identity. -/
inductive GenLang where
  | python
  | golang
  | typescript
  | java
  | rust
  | csharp
  | scala
  | kotlin
  | sql
deriving DecidableEq

/-- The `switch language` dispatch of `generateCmd` (cmd main, lines
70-92): each case selects one generator; any other identifier falls to
the `default` arm, modelled as `none`. -/
def selectGenerator : String → Option GenLang
  | "python" => some .python
  | "go" | "golang" => some .golang
  | "typescript" | "ts" => some .typescript
  | "java" => some .java
  | "rust" | "rs" => some .rust
  | "csharp" | "cs" => some .csharp
  | "scala" => some .scala
  | "kotlin" | "kt" => some .kotlin
  | "sql" | "dbt" => some .sql
  | _ => none

/-- Counterexample to C3 as stated: the dispatch is case-sensitive. The
uppercase identifier `"RS"` is rejected while `"rs"` selects the Rust
generator, so identifiers are not treated case-insensitively. -/
theorem selectGenerator_case_sensitive_counterexample :
    selectGenerator "RS" = none ∧ selectGenerator "rs" = some GenLang.rust := by
  constructor <;> rfl

/-- Claim C3 (amended): the dispatch matches identifiers case-sensitively
(exact lowercase spellings), and each accepted synonym pair selects the
same generator implementation: `"rs"`/`"rust"`, `"go"`/`"golang"`,
`"ts"`/`"typescript"` (and likewise `"cs"`/`"csharp"`, `"kt"`/`"kotlin"`,
`"dbt"`/`"sql"`) each map to one shared implementation. -/
theorem selectGenerator_synonyms :
    selectGenerator "rs" = selectGenerator "rust" ∧
    selectGenerator "rust" = some GenLang.rust ∧
    selectGenerator "go" = selectGenerator "golang" ∧
    selectGenerator "golang" = some GenLang.golang ∧
    selectGenerator "ts" = selectGenerator "typescript" ∧
    selectGenerator "typescript" = some GenLang.typescript ∧
    selectGenerator "cs" = selectGenerator "csharp" ∧
    selectGenerator "kt" = selectGenerator "kotlin" ∧
    selectGenerator "dbt" = selectGenerator "sql" ∧
    selectGenerator "Rust" = none := by
  repeat constructor

/-- One file-system access of the `generate` command, as observed from
outside: the schema-tree read performed by `Loader.LoadAll`, or the
output writes performed by `Generator.Generate`. -/
inductive IOEvent where
  | readSchemaTree
  | writeOutput (outputDir : String)
deriving DecidableEq

/-- The `RunE` body of `generateCmd` (cmd main, lines 62-100), with its
file-system accesses recorded in order: it first runs `LoadAll` (reading
the schema tree), then dispatches on the language identifier, and only a
successful dispatch reaches `Generate` (which writes the output). The
write outcome itself is out of scope; a reached `Generate` is recorded as
its write event. -/
def generateRun (fs : RootFS) (lang outputDir : String) :
    List IOEvent × Except String Unit :=
  match LoadAll fs with
  | .error e => ([.readSchemaTree], .error ("failed to load schemas: " ++ e))
  | .ok _ =>
    match selectGenerator lang with
    | none => ([.readSchemaTree], .error ("unsupported language: " ++ lang))
    | some _ => ([.readSchemaTree, .writeOutput outputDir], .ok ())

/-- Counterexample to C9 as stated: on an unrecognized identifier the
command does fail with an error echoing the identifier, but not before
any I/O — the schema-tree read of `LoadAll` has already happened when the
error is produced (the recorded trace is non-empty). -/
theorem generateRun_io_before_error_counterexample :
    (generateRun c2Root "cobol" "out").2 = .error "unsupported language: cobol" ∧
    (generateRun c2Root "cobol" "out").1 ≠ [] := by
  constructor <;>
    simp [generateRun,
      show LoadAll c2Root = .ok [⟨"MSH", "", "HL7 header", [], "msh.yaml", "hl7v2"⟩] from rfl,
      show selectGenerator "cobol" = none from rfl]

/-- Claim C9 (amended): on an unrecognized target-language identifier the
`generate` command fails with a configuration error echoing the invalid
identifier, after the schema-tree read performed by `LoadAll` but before
any output write: the recorded trace holds the read event and no write
event. -/
theorem generateRun_unsupported_language (fs : RootFS) (lang outputDir : String)
    (schemas : List Schema) (hload : LoadAll fs = .ok schemas)
    (hlang : selectGenerator lang = none) :
    generateRun fs lang outputDir =
      ([.readSchemaTree], .error ("unsupported language: " ++ lang)) := by
  simp [generateRun, hload, hlang]

/-- Witness for the amended C9 at a concrete root and identifier. -/
theorem generateRun_unsupported_language_witness :
    generateRun c2Root "cobol" "out" =
      ([.readSchemaTree], .error ("unsupported language: " ++ "cobol")) :=
  generateRun_unsupported_language c2Root "cobol" "out"
    [⟨"MSH", "", "HL7 header", [], "msh.yaml", "hl7v2"⟩] rfl rfl

/-- The `switch yamlType` cases of `toPythonType`
(`pkg/generator/python/python.go` lines 126-141): `some` is a matched
case, `none` means the `default` arm is reached. -/
def pythonBaseType (s : String) : Option String :=
  if s = "string" ∨ s = "code" ∨ s = "id" ∨ s = "uri" ∨ s = "url" then some "str"
  else if s = "integer" ∨ s = "positiveInt" ∨ s = "unsignedInt" then some "int"
  else if s = "decimal" then some "float"
  else if s = "boolean" then some "bool"
  else if s = "date" then some "date"
  else if s = "datetime" ∨ s = "instant" then some "datetime"
  else if s = "base64Binary" then some "bytes"
  else none

/-- `toPythonType` on the character list of its argument: the `default`
arm checks `strings.HasPrefix(yamlType, "[]")` — the list starting with
`'['`, `']'` — trims the marker and recurses, else yields `"Any"`
(python.go lines 142-148). -/
def toPythonTypeCore (cs : List Char) : String :=
  match pythonBaseType (String.mk cs), cs with
  | some t, _ => t
  | none, '[' :: ']' :: rest => "list[" ++ toPythonTypeCore rest ++ "]"
  | none, _ => "Any"

/-- `toPythonType` from `python.go`. -/
def toPythonType (yamlType : String) : String := toPythonTypeCore yamlType.data

/-- A string starting with the collection marker `"[]"` (the
`strings.HasPrefix(yamlType, "[]")` test), phrased on the character
list. -/
def hasCollectionMarker (s : String) : Bool :=
  match s.data with
  | '[' :: ']' :: _ => true
  | _ => false

/-- A token the type mapper recognizes: one of the switch cases, or a
collection-marked token. -/
def recognizedPythonToken (s : String) : Bool :=
  (pythonBaseType s).isSome || hasCollectionMarker s

/-- No switch case starts with `'['`, so a collection-marked token always
reaches the `default` arm. -/
lemma pythonBaseType_bracket (cs : List Char) :
    pythonBaseType (String.mk ('[' :: cs)) = none := by
  have key : ∀ t : String, t.data.head? ≠ some '[' → String.mk ('[' :: cs) ≠ t := by
    intro t ht he
    subst he
    exact ht rfl
  simp [pythonBaseType, key "string" (by decide), key "code" (by decide),
    key "id" (by decide), key "uri" (by decide), key "url" (by decide),
    key "integer" (by decide), key "positiveInt" (by decide),
    key "unsignedInt" (by decide), key "decimal" (by decide),
    key "boolean" (by decide), key "date" (by decide), key "datetime" (by decide),
    key "instant" (by decide), key "base64Binary" (by decide)]

/-- Every matched switch case returns a non-empty Python type. -/
lemma pythonBaseType_ne_empty {s t : String} (h : pythonBaseType s = some t) : t ≠ "" := by
  unfold pythonBaseType at h
  split_ifs at h <;>
    first
      | (injection h with h2; subst h2; decide)
      | cases h

/-- The `default` arm of `toPythonType` on a collection-marked token:
trim the marker and recurse. -/
lemma toPythonTypeCore_bracket (cs : List Char) :
    toPythonTypeCore ('[' :: ']' :: cs) = "list[" ++ toPythonTypeCore cs ++ "]" := by
  conv_lhs => unfold toPythonTypeCore
  rw [pythonBaseType_bracket]
  rfl

/-- The type mapper never returns the empty string. -/
lemma toPythonTypeCore_ne_empty (cs : List Char) : toPythonTypeCore cs ≠ "" := by
  unfold toPythonTypeCore
  cases h : pythonBaseType (String.mk cs) with
  | some t =>
    show t ≠ ""
    exact pythonBaseType_ne_empty h
  | none =>
    split
    · rename_i heq; cases heq
    · intro he
      have hlen := congrArg String.length he
      simp [String.length_append] at hlen
      exact absurd hlen.2 (by decide)
    · decide

/-- Claim C4: `toPythonType` is total — for every input string it returns a
non-empty type representation and never fails, and an unrecognized token
(no switch case, no collection marker) yields the `"Any"` fallback. -/
theorem toPythonType_total (t : String) :
    toPythonType t ≠ "" ∧
    (recognizedPythonToken t = false → toPythonType t = "Any") := by
  constructor
  · exact toPythonTypeCore_ne_empty t.data
  · intro hr
    rw [recognizedPythonToken] at hr
    rcases Bool.or_eq_false_iff.mp hr with ⟨h1, h2⟩
    have hbase : pythonBaseType t = none := by
      cases h : pythonBaseType t with
      | none => rfl
      | some x => rw [h] at h1; simp at h1
    rw [toPythonType]
    unfold toPythonTypeCore
    rw [show String.mk t.data = t from rfl, hbase]
    split
    · rename_i heq; cases heq
    · rename_i rest heq
      rw [hasCollectionMarker, heq] at h2
      simp at h2
    · rfl

/-- Witness for C4 at the concrete unrecognized token `"HumanName"`. -/
theorem toPythonType_total_witness : toPythonType "HumanName" = "Any" :=
  (toPythonType_total "HumanName").2 rfl

/-- Claim C5: prefixing any abstract type token with the collection marker
maps it to the Python ordered-sequence type of the mapped inner token, so
nested collections map to equally nested `list[...]` types. -/
theorem toPythonType_collection (t : String) :
    toPythonType ("[]" ++ t) = "list[" ++ toPythonType t ++ "]" := by
  rw [toPythonType, toPythonType,
    show ("[]" ++ t).data = '[' :: ']' :: t.data from rfl]
  exact toPythonTypeCore_bracket t.data

/-- The grouping map `byNamespace` of `Generator.Generate`
(`python.go` lines 24-28): appending one schema to the group of its
namespace, keyed by an association list standing for the Go map's
contents. -/
def insertGroup : List (String × List Schema) → String → Schema → List (String × List Schema)
  | [], ns, s => [(ns, [s])]
  | (k, g) :: rest, ns, s =>
    if k = ns then (k, g ++ [s]) :: rest
    else (k, g) :: insertGroup rest ns s

/-- The grouping loop of `Generator.Generate`: one `insertGroup` per
schema, in input order. -/
def groupByNamespace (schemas : List Schema) : List (String × List Schema) :=
  schemas.foldl (fun acc s => insertGroup acc s.Namespace s) []

/-- Map access `byNamespace[ns]` (a missing key reads as the empty
slice). -/
def groupsLookup : List (String × List Schema) → String → List Schema
  | [], _ => []
  | (k, g) :: rest, ns => if k = ns then g else groupsLookup rest ns

lemma groupsLookup_insertGroup (acc : List (String × List Schema)) (ns0 ns : String)
    (s : Schema) :
    groupsLookup (insertGroup acc ns0 s) ns =
      if ns = ns0 then groupsLookup acc ns ++ [s] else groupsLookup acc ns := by
  induction acc with
  | nil =>
    by_cases h : ns = ns0
    · subst h; simp [insertGroup, groupsLookup]
    · simp [insertGroup, groupsLookup, h, Ne.symm h]
  | cons p rest ih =>
    obtain ⟨k, g⟩ := p
    by_cases hk : k = ns0
    · subst hk
      by_cases h : ns = k
      · subst h; simp [insertGroup, groupsLookup]
      · simp [insertGroup, groupsLookup, h, Ne.symm h]
    · by_cases h : k = ns
      · have hns : ¬ns = ns0 := fun he => hk (h.trans he)
        simp [insertGroup, groupsLookup, hk, h, hns]
      · simp [insertGroup, groupsLookup, hk, h, ih]

lemma groupsLookup_groupByNamespace (schemas : List Schema) (ns : String) :
    groupsLookup (groupByNamespace schemas) ns =
      schemas.filter (fun s => s.Namespace == ns) := by
  induction schemas using List.reverseRecOn with
  | nil => rfl
  | append_singleton l s ih =>
    rw [groupByNamespace, List.foldl_append, List.foldl_cons, List.foldl_nil]
    rw [show List.foldl (fun acc s => insertGroup acc s.Namespace s) [] l
          = groupByNamespace l from rfl]
    rw [groupsLookup_insertGroup, List.filter_append, ih, List.filter_singleton]
    by_cases h : s.Namespace = ns
    · simp [h]
    · have hb : (s.Namespace == ns) = false := beq_eq_false_iff_ne.mpr h
      simp [h, Ne.symm h, hb]

/-- Claim C7: the namespace grouping of the Python generator is a stable
partition — the group of each namespace is exactly the subsequence of
input schemas carrying that namespace, in their original relative
order. -/
theorem generate_grouping_stable (schemas : List Schema) (ns : String) :
    groupsLookup (groupByNamespace schemas) ns =
      schemas.filter (fun s => s.Namespace == ns) ∧
    (groupsLookup (groupByNamespace schemas) ns).Sublist schemas := by
  refine ⟨groupsLookup_groupByNamespace schemas ns, ?_⟩
  rw [groupsLookup_groupByNamespace]
  exact List.filter_sublist schemas

/-- `Generator.GenerateMappings` of the Python generator (`python.go`
lines 109-113): the body is only `return nil`, so no file is written
(empty path-content list) and no error is returned. -/
def pyGenerateMappings (mappings : List SchemaMapping) (outputDir : String) :
    List (String × String) × Except String Unit :=
  ([], .ok ())

/-- Claim C10: `GenerateMappings` succeeds (nil error) on every mapping
list and output directory, and renders nothing. -/
theorem pyGenerateMappings_trivial (mappings : List SchemaMapping) (outputDir : String) :
    pyGenerateMappings mappings outputDir = ([], .ok ()) := rfl

/-- Modelled from the spec: the Override Resolver of spec §4.2 is absent
from the sources under verification (only the `schema_overrides` README
describes it), so its field model is taken from §3: the structural
attributes `name`, `type`, `required`, `description`, `children`, plus
all five protected-data attributes the README enumerates (`pii_level`,
`pii_category`, `hipaa_identifier`, `masking_strategy`,
`masking_params`). -/
inductive MField where
  | mk (name type : String) (required : Bool) (description : String)
       (pii_level pii_category hipaa_id masking_strategy : String)
       (masking_params : List (String × String))
       (children : List MField)

/-- The field's name. -/
def MField.name : MField → String
  | ⟨n, _, _, _, _, _, _, _, _, _⟩ => n

/-- The five protected-data attributes of a field, bundled. -/
structure ProtectedData where
  pii_level : String
  pii_category : String
  hipaa_id : String
  masking_strategy : String
  masking_params : List (String × String)

/-- Projection of a field onto its protected-data attributes. -/
def protectedDataOf : MField → ProtectedData
  | ⟨_, _, _, _, p1, p2, p3, p4, p5, _⟩ => ⟨p1, p2, p3, p4, p5⟩

/-- Modelled from the spec: one entry of `field_overrides` — a partial
metadata object carrying only the protected-data keys the organization
wishes to change (spec §3, §6). -/
structure FieldOverride where
  pii_level : Option String
  pii_category : Option String
  hipaa_id : Option String
  masking_strategy : Option String
  masking_params : Option (List (String × String))

/-- Modelled from the spec: an override file — optional documentary
description plus `field_overrides`, a mapping from field name to a
partial metadata object (spec §6). -/
structure OverrideDocument where
  description : String
  field_overrides : List (String × FieldOverride)

/-- The schema as the Override Resolver sees it: resolved name,
description, fields. -/
structure MSchema where
  name : String
  description : String
  fields : List MField

/-- Lookup of a field name in `field_overrides`. -/
def lookupOverride : List (String × FieldOverride) → String → Option FieldOverride
  | [], _ => none
  | (k, o) :: rest, n => if k = n then some o else lookupOverride rest n

mutual

/-- Modelled from the spec: the per-field merge of §4.2 — if the override
document has an entry keyed by the field's name, replace only the
protected-data attributes present in the entry on a copy of the field,
leaving `type`, `required`, `description` and `children` untouched, and
recurse into `children`; overrides never introduce new fields. -/
def mergeField (ov : List (String × FieldOverride)) : MField → MField
  | ⟨n, t, r, d, p1, p2, p3, p4, p5, ch⟩ =>
    match lookupOverride ov n with
    | some o =>
      ⟨n, t, r, d, o.pii_level.getD p1, o.pii_category.getD p2,
       o.hipaa_id.getD p3, o.masking_strategy.getD p4,
       o.masking_params.getD p5, mergeFields ov ch⟩
    | none => ⟨n, t, r, d, p1, p2, p3, p4, p5, mergeFields ov ch⟩

/-- The merge pass over a field list, in order. -/
def mergeFields (ov : List (String × FieldOverride)) : List MField → List MField
  | [] => []
  | f :: fs => mergeField ov f :: mergeFields ov fs

end

/-- Modelled from the spec: `Merge(base, override)` of §4.2 — a pure
function producing a derived schema whose fields carry the merged
metadata; the base schema's structural shape is authoritative. -/
def Merge (base : MSchema) (ov : OverrideDocument) : MSchema :=
  { base with fields := mergeFields ov.field_overrides base.fields }

/-- The structural skeleton of a field: everything but the five
protected-data attributes. -/
inductive FieldShape where
  | mk (name type : String) (required : Bool) (description : String)
       (children : List FieldShape)

mutual

/-- Erase the protected-data attributes of a field, keeping `name`,
`type`, `required`, `description` and the (recursively erased)
`children`. -/
def shapeOf : MField → FieldShape
  | ⟨n, t, r, d, _, _, _, _, _, ch⟩ => ⟨n, t, r, d, shapesOf ch⟩

/-- `shapeOf` over a field list. -/
def shapesOf : List MField → List FieldShape
  | [] => []
  | f :: fs => shapeOf f :: shapesOf fs

end

mutual

/-- Merging never changes a field's structural skeleton, at any nesting
depth. -/
theorem mergeField_shape (ov : List (String × FieldOverride)) :
    ∀ f, shapeOf (mergeField ov f) = shapeOf f
  | ⟨n, t, r, d, p1, p2, p3, p4, p5, ch⟩ => by
    cases h : lookupOverride ov n <;>
      simp [mergeField, h, shapeOf, mergeFields_shape ov ch]

/-- `mergeField_shape`, over a field list. -/
theorem mergeFields_shape (ov : List (String × FieldOverride)) :
    ∀ l, shapesOf (mergeFields ov l) = shapesOf l
  | [] => rfl
  | f :: fs => by
    simp [mergeFields, shapesOf, mergeField_shape ov f, mergeFields_shape ov fs]

end

/-- Claim C8: the override merge leaves the schema's name and description
and every field's `type`, `required`, `description` and `children`
unchanged at every nesting depth (the structural skeleton of the merged
field tree equals the base's), and a field whose name the override does
not mention keeps all five protected-data attributes as well. -/
theorem merge_preserves_structure (base : MSchema) (ov : OverrideDocument) :
    (Merge base ov).name = base.name ∧
    (Merge base ov).description = base.description ∧
    shapesOf (Merge base ov).fields = shapesOf base.fields ∧
    (∀ f : MField, lookupOverride ov.field_overrides f.name = none →
      protectedDataOf (mergeField ov.field_overrides f) = protectedDataOf f) := by
  refine ⟨rfl, rfl, mergeFields_shape ov.field_overrides base.fields, ?_⟩
  intro f hf
  obtain ⟨n, t, r, d, p1, p2, p3, p4, p5, ch⟩ := f
  rw [MField.name] at hf
  simp [mergeField, hf, protectedDataOf]

/-- A concrete base schema for the C8 witness: the spec §8 example. -/
def c8Base : MSchema :=
  ⟨"Patient", "FHIR patient",
   [⟨"birthDate", "date", false, "", "high", "", "", "", [], []⟩]⟩

/-- A concrete override document for the C8 witness: the spec §8 example
override of `birthDate`. -/
def c8Override : OverrideDocument :=
  ⟨"Stricter masking",
   [("birthDate", ⟨some "critical", none, none, some "generalize", none⟩)]⟩

/-- Witness for C8: structural skeleton preserved on the concrete example,
and a field absent from the override (`gender`) keeps its protected
data. -/
theorem merge_preserves_structure_witness :
    shapesOf (Merge c8Base c8Override).fields = shapesOf c8Base.fields ∧
    protectedDataOf (mergeField c8Override.field_overrides
        ⟨"gender", "code", false, "", "low", "", "", "", [], []⟩) =
      protectedDataOf ⟨"gender", "code", false, "", "low", "", "", "", [], []⟩ :=
  ⟨(merge_preserves_structure c8Base c8Override).2.2.1,
   (merge_preserves_structure c8Base c8Override).2.2.2
     ⟨"gender", "code", false, "", "low", "", "", "", [], []⟩ rfl⟩

end Ehrglot
